import Mathlib

/-!
Verification of the rbfx scene-batch collection subsystem.

This file gives a shallow embedding of the data and algorithms of
`Source/Urho3D/Graphics/SceneBatch.h` (sort-key builders and batch
comparisons), `CustomView::Define`, `SceneBatchCollector::GetMainLight`,
`SceneBatchCollector::GetSortedShadowBatches`, and — modelled from the
specification where the implementation file is not part of the sampled
source — the `DrawableLightAccumulator` ranking structure and
`SceneBatchCollector::FindMainLight`.

Machine integers are modelled as `Nat` with explicit range hypotheses
reflecting the C++ types (`unsigned` is a value below `2 ^ 32`,
`unsigned char` below `2 ^ 8`).  `float` values that are only ever
compared (sorting distances, light importance scores) are modelled as
`Int`, which has the same ordering behaviour on the values the engine
produces.  `ea::sort` is modelled as `List.mergeSort` with the
"not greater" total preorder derived from the batch `operator<`.
-/

namespace Rbfx

/-- Value of the engine-wide constant `M_MAX_UNSIGNED` (`0xffffffff`),
used as a "no light" / "no index" sentinel. -/
def M_MAX_UNSIGNED : Nat := 4294967295

/-! ## Sort-key builders (`SceneBatch.h`)

A resolved scene batch is represented by the values the sort-key
constructors read from it: `material_->GetRenderOrder()`, the pipeline
state's shader hash, `MakeHash(pipelineState_)`, `MakeHash(material_)`,
`sourceBatch.lightmapIndex_`, `MakeHash(geometry_)`,
`sourceBatch.distance_` and `lightIndex_`. -/

structure BatchSortValues where
  lightIndex_ : Nat
  renderOrder : Nat
  shaderHash : Nat
  pipelineStateHash : Nat
  materialHash : Nat
  lightmapIndex_ : Nat
  geometryHash : Nat
  distance_ : Int
deriving DecidableEq, Repr

/-- Sorting fields of `BaseSceneBatchSortedByState`. -/
structure BaseSceneBatchSortedByState where
  pipelineStateKey_ : Nat
  materialGeometryKey_ : Nat
  distance_ : Int
deriving DecidableEq, Repr

/-- Constructor of `BaseSceneBatchSortedByState`: packs
`renderOrder << 56 | shaderHash << 24 | (psh & 0xffffff) ^ (psh >> 24)`
into the pipeline-state key, and
`(materialHash ^ lightmapIndex) << 32 | geometryHash` into the
material/geometry key. -/
def mkBaseSceneBatchSortedByState (b : BatchSortValues) : BaseSceneBatchSortedByState where
  pipelineStateKey_ :=
    (b.renderOrder <<< 56) ||| (b.shaderHash <<< 24) |||
      ((b.pipelineStateHash &&& 16777215) ^^^ (b.pipelineStateHash >>> 24))
  materialGeometryKey_ := ((b.materialHash ^^^ b.lightmapIndex_) <<< 32) ||| b.geometryHash
  distance_ := b.distance_

/-- `BaseSceneBatchSortedByState::operator<`. -/
def BaseSceneBatchSortedByState.lt (a rhs : BaseSceneBatchSortedByState) : Bool :=
  if a.pipelineStateKey_ ≠ rhs.pipelineStateKey_ then
    decide (a.pipelineStateKey_ < rhs.pipelineStateKey_)
  else if a.materialGeometryKey_ ≠ rhs.materialGeometryKey_ then
    decide (a.materialGeometryKey_ < rhs.materialGeometryKey_)
  else decide (a.distance_ > rhs.distance_)

/-- Sorting fields of `BaseSceneBatchSortedBackToFront`. -/
structure BaseSceneBatchSortedBackToFront where
  renderOrder_ : Nat
  distance_ : Int
deriving DecidableEq, Repr

/-- Constructor of `BaseSceneBatchSortedBackToFront`. -/
def mkBaseSceneBatchSortedBackToFront (b : BatchSortValues) : BaseSceneBatchSortedBackToFront where
  renderOrder_ := b.renderOrder
  distance_ := b.distance_

/-- `BaseSceneBatchSortedBackToFront::operator<`. -/
def BaseSceneBatchSortedBackToFront.lt (a rhs : BaseSceneBatchSortedBackToFront) : Bool :=
  if a.renderOrder_ ≠ rhs.renderOrder_ then decide (a.renderOrder_ < rhs.renderOrder_)
  else decide (a.distance_ < rhs.distance_)

/-- Sorting fields of `LightBatchSortedByState`
(extends `BaseSceneBatchSortedByState` with the light index). -/
structure LightBatchSortedByState extends BaseSceneBatchSortedByState where
  lightIndex_ : Nat
deriving DecidableEq, Repr

/-- Constructor of `LightBatchSortedByState`. -/
def mkLightBatchSortedByState (b : BatchSortValues) : LightBatchSortedByState :=
  { mkBaseSceneBatchSortedByState b with lightIndex_ := b.lightIndex_ }

/-- `LightBatchSortedByState::operator<`: light index first, then the
pipeline-state key, then the material/geometry key.  The distance field
is not consulted. -/
def LightBatchSortedByState.lt (a rhs : LightBatchSortedByState) : Bool :=
  if a.lightIndex_ ≠ rhs.lightIndex_ then decide (a.lightIndex_ < rhs.lightIndex_)
  else if a.pipelineStateKey_ ≠ rhs.pipelineStateKey_ then
    decide (a.pipelineStateKey_ < rhs.pipelineStateKey_)
  else decide (a.materialGeometryKey_ < rhs.materialGeometryKey_)

/-- Comparison for light batches as the specification describes it
(claim wording): light index first, then the full state-ordered
comparison including its descending-distance tie-break.  Declared only
to be compared with the source comparison `LightBatchSortedByState.lt`. -/
def lightBatchLtClaimed (a rhs : LightBatchSortedByState) : Bool :=
  if a.lightIndex_ ≠ rhs.lightIndex_ then decide (a.lightIndex_ < rhs.lightIndex_)
  else BaseSceneBatchSortedByState.lt a.toBaseSceneBatchSortedByState
    rhs.toBaseSceneBatchSortedByState

/-- Total preorder used to model `ea::sort` with `operator<`:
`a` may precede `b` unless `b < a`. -/
def stateLe (a b : BaseSceneBatchSortedByState) : Bool := !(BaseSceneBatchSortedByState.lt b a)

/-- Total preorder for the back-to-front comparison. -/
def backToFrontLe (a b : BaseSceneBatchSortedBackToFront) : Bool :=
  !(BaseSceneBatchSortedBackToFront.lt b a)

/-- Total preorder for the light-batch comparison. -/
def lightLe (a b : LightBatchSortedByState) : Bool := !(LightBatchSortedByState.lt b a)

/-- Sorting a state-ordered batch list (`ea::sort` with `operator<`). -/
def sortByState (l : List BaseSceneBatchSortedByState) : List BaseSceneBatchSortedByState :=
  l.mergeSort stateLe

/-- Sorting a back-to-front batch list. -/
def sortBackToFront (l : List BaseSceneBatchSortedBackToFront) :
    List BaseSceneBatchSortedBackToFront :=
  l.mergeSort backToFrontLe

/-- Sorting a light batch list. -/
def sortLightBatches (l : List LightBatchSortedByState) : List LightBatchSortedByState :=
  l.mergeSort lightLe

/-- `SceneBatchCollector::GetSortedShadowBatches<T>` with
`T = BaseSceneBatchSortedByState` (the instantiation used by
`CustomView::Render`): wrap every input batch with the sorting
constructor, then sort with the wrapper's `operator<`. -/
def GetSortedShadowBatches (batches : List BatchSortValues) :
    List BaseSceneBatchSortedByState :=
  (batches.map mkBaseSceneBatchSortedByState).mergeSort stateLe

/-! ## `CustomView::Define` -/

/-- Octree component as `Define` observes it: only the visible-drawable
count (`GetAllDrawables().size()`) is read. -/
structure Octree where
  numDrawables : Nat
deriving DecidableEq, Repr

/-- Scene as `Define` observes it: `GetComponent<Octree>()` may be absent. -/
structure Scene where
  octree : Option Octree
deriving DecidableEq, Repr

/-- Viewport as `Define` observes it: `GetScene()` and `GetCamera()` may
return null.  The camera is an opaque non-null handle. -/
structure Viewport where
  scene : Option Scene
  camera : Option Nat
deriving DecidableEq, Repr

/-- State of `CustomView` touched by `Define`.  `renderTarget_` is a
nullable pointer (null selects the backbuffer), so it is stored as an
`Option`. -/
structure CustomView where
  scene_ : Option Scene
  camera_ : Option Nat
  octree_ : Option Octree
  numDrawables_ : Nat
  renderTarget_ : Option Nat
  viewport_ : Option Viewport
deriving DecidableEq, Repr

/-- `CustomView::Define`: capture scene, camera and octree from the
viewport; fail (returning `false`) when camera or octree is missing,
otherwise record drawable count, render target and viewport and return
`true`. -/
def CustomView.Define (v : CustomView) (renderTarget : Option Nat) (viewport : Viewport) :
    Bool × CustomView :=
  let s := viewport.scene
  let c := if s.isSome then viewport.camera else none
  let o := s.bind Scene.octree
  let v' : CustomView := { v with scene_ := s, camera_ := c, octree_ := o }
  match c, o with
  | some _, some oct =>
    (true,
      { v' with
        numDrawables_ := oct.numDrawables
        renderTarget_ := renderTarget
        viewport_ := some viewport })
  | _, _ => (false, v')

/-! ## `SceneBatchCollector::GetMainLight` and `FindMainLight`

`GetMainLight` is embedded from the header.  `FindMainLight`'s body is
not part of the sampled source, so it is modelled from the
specification. -/

/-- Light type enumeration (directional / spot / point). -/
inductive LightType where
  | directional
  | spot
  | point
deriving DecidableEq, Repr

/-- Per-light values `FindMainLight` consults: a stable identity, the
light type, and the brightness (modelled as `Int`; only its ordering is
used). -/
structure Light where
  id : Nat
  lightType : LightType
  brightness : Int
deriving DecidableEq, Repr

/-- Modelled from the spec: the deterministic "better main light"
ordering of `SceneBatchCollector::FindMainLight` — brighter directional
light wins, equal brightness is tie-broken by the lower stable identity
(spec section 4.1 and the design note on deterministic tie-breaks). -/
def betterMainLight (candidate best : Light) : Bool :=
  decide (best.brightness < candidate.brightness) ||
    (decide (candidate.brightness = best.brightness) && decide (candidate.id < best.id))

/-- Modelled from the spec: one step of the `FindMainLight` scan.  Only
directional lights are candidates; the running best is replaced exactly
when the new candidate is strictly better. -/
def findMainLightStep (best : Option Light) (light : Light) : Option Light :=
  if light.lightType = LightType.directional then
    match best with
    | none => some light
    | some b => if betterMainLight light b then some light else some b
  else best

/-- Modelled from the spec: the light selected by
`SceneBatchCollector::FindMainLight`, i.e. the brightest visible
directional light (deterministic tie-break by lower identity), or none
when no directional light is visible. -/
def FindMainLight_selected (lights : List Light) : Option Light :=
  lights.foldl findMainLightStep none

/-- Modelled from the spec: `SceneBatchCollector::FindMainLight` —
index of the selected main directional light in the visible-light list,
or `M_MAX_UNSIGNED` when there is none. -/
def FindMainLight (lights : List Light) : Nat :=
  match FindMainLight_selected lights with
  | none => M_MAX_UNSIGNED
  | some l => lights.indexOf l

/-- Slice of `SceneBatchCollector` state read by `GetMainLight`:
the visible-light list (entries are non-null `SceneLight*`, modelled as
opaque handles) and the main-light index. -/
structure SceneBatchCollector where
  visibleLights_ : List Nat
  mainLightIndex_ : Nat
deriving DecidableEq, Repr

/-- `SceneBatchCollector::GetMainLightIndex`. -/
def SceneBatchCollector.GetMainLightIndex (s : SceneBatchCollector) : Nat :=
  s.mainLightIndex_

/-- `SceneBatchCollector::GetMainLight`: null unless a main light index
is set, otherwise the visible-light entry at that index (an out-of-range
index would be undefined behaviour in the C++ source, hence the `Option`
lookup). -/
def SceneBatchCollector.GetMainLight (s : SceneBatchCollector) : Option Nat :=
  if s.mainLightIndex_ ≠ M_MAX_UNSIGNED then s.visibleLights_[s.mainLightIndex_]? else none

/-! ## `DrawableLightAccumulator`

`DrawableLightAccumulator.h` is not part of the sampled source (only the
declaration `DrawableLightAccumulator<MaxPixelLights, MaxVertexLights>
drawableLighting_` is), so the structure is modelled from the
specification, sections 3, 4.2 and 9: two bounded tiers kept as small
insertion-sorted arrays in descending importance, stable on ties
(first-inserted wins); an important light is forced into the pixel tier,
evicting the lowest-importance existing pixel entry when over capacity;
a non-important candidate is admitted against the pixel tier first and
the refused or displaced entry cascades to vertex-tier admission;
entries failing both admissions are dropped. -/

/-- One accumulated light entry: the light's index in the visible-light
list and its importance score (a `float` in the engine, modelled as
`Int`; only its ordering is used). -/
structure LightAccEntry where
  lightIndex : Nat
  importance : Int
deriving DecidableEq, Repr

/-- Descending order on importance, the order both tiers are kept in. -/
def impGE (a b : LightAccEntry) : Prop := b.importance ≤ a.importance

/-- Modelled from the spec: stable insertion into a tier kept in
descending importance order — the new entry goes after every existing
entry of greater or equal importance, so earlier-inserted entries come
first among ties. -/
def insertRanked : List LightAccEntry → LightAccEntry → List LightAccEntry
  | [], e => [e]
  | x :: xs, e =>
    if x.importance < e.importance then e :: x :: xs else x :: insertRanked xs e

/-- Modelled from the spec: tier admission for a non-forced candidate.
With free capacity the candidate is inserted; at capacity it must beat
the tier minimum (the last entry of the descending tier) to displace it,
ties keeping the incumbent (first-inserted wins).  Returns the new tier
and the entry that falls through (the refused candidate or the displaced
minimum). -/
def tierAdmit (cap : Nat) (tier : List LightAccEntry) (e : LightAccEntry) :
    List LightAccEntry × Option LightAccEntry :=
  if tier.length < cap then (insertRanked tier e, none)
  else match tier.getLast? with
    | none => (tier, some e)
    | some m =>
      if m.importance < e.importance then ((insertRanked tier e).dropLast, some m)
      else (tier, some e)

/-- Modelled from the spec: the per-drawable accumulator state — a pixel
tier and a vertex tier, each a bounded descending-importance array. -/
structure DrawableLightAccumulator where
  pixelLights : List LightAccEntry
  vertexLights : List LightAccEntry
deriving DecidableEq, Repr

/-- Modelled from the spec: `Insert(lightIndex, importance, isImportant)`
of the `DrawableLightAccumulator` with pixel capacity `P` and vertex
capacity `V`.  An important light is forced into the pixel tier; when
the tier is at capacity the lowest-importance existing entry (the last
of the descending array, so the most recently inserted among tied
minima — first-inserted wins) is evicted and cascades to vertex
admission.  A non-important light goes through pixel admission and its
fall-through cascades to vertex admission; entries failing both are
dropped. -/
def AccumulateLight (P V : Nat) (acc : DrawableLightAccumulator) (e : LightAccEntry)
    (isImportant : Bool) : DrawableLightAccumulator :=
  if isImportant then
    if acc.pixelLights.length < P then
      { acc with pixelLights := insertRanked acc.pixelLights e }
    else match acc.pixelLights.getLast? with
      | none => { acc with pixelLights := insertRanked acc.pixelLights e }
      | some m =>
        { pixelLights := insertRanked acc.pixelLights.dropLast e
          vertexLights := (tierAdmit V acc.vertexLights m).1 }
  else
    match tierAdmit P acc.pixelLights e with
    | (pixel, none) => { acc with pixelLights := pixel }
    | (pixel, some m) =>
      { pixelLights := pixel
        vertexLights := (tierAdmit V acc.vertexLights m).1 }

/-- Accumulation of a whole insertion sequence (entry, isImportant),
starting from the empty accumulator. -/
def accumulateLights (P V : Nat) (seq : List (LightAccEntry × Bool)) :
    DrawableLightAccumulator :=
  seq.foldl (fun acc eb => AccumulateLight P V acc eb.1 eb.2) ⟨[], []⟩

/-- Accumulation of a sequence of non-important candidates. -/
def insertAll (P V : Nat) (l : List LightAccEntry) : DrawableLightAccumulator :=
  l.foldl (fun acc e => AccumulateLight P V acc e false) ⟨[], []⟩

/-- Modelled from the spec: `GetVertexLights()` — the vertex-tier light
indices in descending importance order, padded with the
`M_MAX_UNSIGNED` "no light" sentinel up to the tier capacity. -/
def GetVertexLights (V : Nat) (acc : DrawableLightAccumulator) : List Nat :=
  acc.vertexLights.map LightAccEntry.lightIndex ++
    List.replicate (V - acc.vertexLights.length) M_MAX_UNSIGNED

/-- Stable full insertion sort of a candidate list by descending
importance: the reference ranking the bounded accumulator is compared
against.  Its first `P + V` entries are the retained candidates, the
first `P` the pixel tier and the next `V` the vertex tier. -/
def rankedSort (l : List LightAccEntry) : List LightAccEntry :=
  l.foldl insertRanked []

/-- Bounded ranked fold: insert each candidate in order, truncating to
the `K` highest-importance entries after every insertion. -/
def rankedFold (K : Nat) (R : List LightAccEntry) (l : List LightAccEntry) :
    List LightAccEntry :=
  l.foldl (fun S e => (insertRanked S e).take K) R

/-! ## Comparison characterizations (helper lemmas) -/

theorem stateLt_iff (a b : BaseSceneBatchSortedByState) :
    a.lt b = true ↔
      (a.pipelineStateKey_ < b.pipelineStateKey_ ∨
        (a.pipelineStateKey_ = b.pipelineStateKey_ ∧
          (a.materialGeometryKey_ < b.materialGeometryKey_ ∨
            (a.materialGeometryKey_ = b.materialGeometryKey_ ∧ b.distance_ < a.distance_)))) := by
  unfold BaseSceneBatchSortedByState.lt
  by_cases h1 : a.pipelineStateKey_ = b.pipelineStateKey_ <;>
    by_cases h2 : a.materialGeometryKey_ = b.materialGeometryKey_ <;>
    simp [h1, h2]

theorem stateLt_false_iff (a b : BaseSceneBatchSortedByState) :
    a.lt b = false ↔
      ¬ (a.pipelineStateKey_ < b.pipelineStateKey_ ∨
        (a.pipelineStateKey_ = b.pipelineStateKey_ ∧
          (a.materialGeometryKey_ < b.materialGeometryKey_ ∨
            (a.materialGeometryKey_ = b.materialGeometryKey_ ∧ b.distance_ < a.distance_)))) := by
  rw [Bool.eq_false_iff, Ne, stateLt_iff]

theorem backToFrontLt_iff (a b : BaseSceneBatchSortedBackToFront) :
    a.lt b = true ↔
      (a.renderOrder_ < b.renderOrder_ ∨
        (a.renderOrder_ = b.renderOrder_ ∧ a.distance_ < b.distance_)) := by
  unfold BaseSceneBatchSortedBackToFront.lt
  by_cases h1 : a.renderOrder_ = b.renderOrder_ <;> simp [h1]

theorem backToFrontLt_false_iff (a b : BaseSceneBatchSortedBackToFront) :
    a.lt b = false ↔
      ¬ (a.renderOrder_ < b.renderOrder_ ∨
        (a.renderOrder_ = b.renderOrder_ ∧ a.distance_ < b.distance_)) := by
  rw [Bool.eq_false_iff, Ne, backToFrontLt_iff]

theorem lightLt_iff (a b : LightBatchSortedByState) :
    a.lt b = true ↔
      (a.lightIndex_ < b.lightIndex_ ∨
        (a.lightIndex_ = b.lightIndex_ ∧
          (a.pipelineStateKey_ < b.pipelineStateKey_ ∨
            (a.pipelineStateKey_ = b.pipelineStateKey_ ∧
              a.materialGeometryKey_ < b.materialGeometryKey_)))) := by
  unfold LightBatchSortedByState.lt
  by_cases h1 : a.lightIndex_ = b.lightIndex_ <;>
    by_cases h2 : a.pipelineStateKey_ = b.pipelineStateKey_ <;>
    simp [h1, h2]

theorem lightLt_false_iff (a b : LightBatchSortedByState) :
    a.lt b = false ↔
      ¬ (a.lightIndex_ < b.lightIndex_ ∨
        (a.lightIndex_ = b.lightIndex_ ∧
          (a.pipelineStateKey_ < b.pipelineStateKey_ ∨
            (a.pipelineStateKey_ = b.pipelineStateKey_ ∧
              a.materialGeometryKey_ < b.materialGeometryKey_)))) := by
  rw [Bool.eq_false_iff, Ne, lightLt_iff]

theorem stateLe_trans : ∀ a b c : BaseSceneBatchSortedByState,
    stateLe a b → stateLe b c → stateLe a c := by
  intro a b c hab hbc
  simp only [stateLe, Bool.not_eq_true'] at hab hbc ⊢
  rw [stateLt_false_iff] at hab hbc ⊢
  omega

theorem stateLe_total : ∀ a b : BaseSceneBatchSortedByState, stateLe a b || stateLe b a := by
  intro a b
  simp only [stateLe, Bool.or_eq_true, Bool.not_eq_true']
  by_cases h : a.lt b = true
  · left
    rw [stateLt_false_iff]
    rw [stateLt_iff] at h
    omega
  · right
    simpa using h

theorem backToFrontLe_trans : ∀ a b c : BaseSceneBatchSortedBackToFront,
    backToFrontLe a b → backToFrontLe b c → backToFrontLe a c := by
  intro a b c hab hbc
  simp only [backToFrontLe, Bool.not_eq_true'] at hab hbc ⊢
  rw [backToFrontLt_false_iff] at hab hbc ⊢
  omega

theorem backToFrontLe_total : ∀ a b : BaseSceneBatchSortedBackToFront,
    backToFrontLe a b || backToFrontLe b a := by
  intro a b
  simp only [backToFrontLe, Bool.or_eq_true, Bool.not_eq_true']
  by_cases h : a.lt b = true
  · left
    rw [backToFrontLt_false_iff]
    rw [backToFrontLt_iff] at h
    omega
  · right
    simpa using h

theorem lightLe_trans : ∀ a b c : LightBatchSortedByState,
    lightLe a b → lightLe b c → lightLe a c := by
  intro a b c hab hbc
  simp only [lightLe, Bool.not_eq_true'] at hab hbc ⊢
  rw [lightLt_false_iff] at hab hbc ⊢
  omega

theorem lightLe_total : ∀ a b : LightBatchSortedByState, lightLe a b || lightLe b a := by
  intro a b
  simp only [lightLe, Bool.or_eq_true, Bool.not_eq_true']
  by_cases h : a.lt b = true
  · left
    rw [lightLt_false_iff]
    rw [lightLt_iff] at h
    omega
  · right
    simpa using h

/-! ## Claim theorems: sort keys and comparisons -/

/-- C4: the state-ordered sort-key builder packs the primary 64-bit key
as {material render order in the most significant 8 bits | 32-bit
shader-variation hash | pipeline-state hash folded to 24 bits}, packs
the secondary 64-bit key as {material hash XOR lightmap index in the
high 32 bits | geometry hash in the low 32 bits}, and the comparison
orders by primary key, then secondary key, then descending distance
(farther batch first).  The range hypotheses reflect the C++ types
(`unsigned char` render order, `unsigned` hashes). -/
theorem stateSortKey_packing (b : BatchSortValues)
    (hro : b.renderOrder < 2 ^ 8) (hsh : b.shaderHash < 2 ^ 32)
    (hps : b.pipelineStateHash < 2 ^ 32) (hmh : b.materialHash < 2 ^ 32)
    (hlm : b.lightmapIndex_ < 2 ^ 32) (hgh : b.geometryHash < 2 ^ 32) :
    (mkBaseSceneBatchSortedByState b).pipelineStateKey_ / 2 ^ 56 = b.renderOrder ∧
    (mkBaseSceneBatchSortedByState b).pipelineStateKey_ / 2 ^ 24 % 2 ^ 32 = b.shaderHash ∧
    (mkBaseSceneBatchSortedByState b).pipelineStateKey_ % 2 ^ 24 =
      (b.pipelineStateHash % 2 ^ 24) ^^^ (b.pipelineStateHash / 2 ^ 24) ∧
    (mkBaseSceneBatchSortedByState b).pipelineStateKey_ < 2 ^ 64 ∧
    (mkBaseSceneBatchSortedByState b).materialGeometryKey_ / 2 ^ 32 =
      b.materialHash ^^^ b.lightmapIndex_ ∧
    (mkBaseSceneBatchSortedByState b).materialGeometryKey_ % 2 ^ 32 = b.geometryHash ∧
    (mkBaseSceneBatchSortedByState b).materialGeometryKey_ < 2 ^ 64 ∧
    (∀ a c : BaseSceneBatchSortedByState, a.lt c = true ↔
      (a.pipelineStateKey_ < c.pipelineStateKey_ ∨
        (a.pipelineStateKey_ = c.pipelineStateKey_ ∧
          (a.materialGeometryKey_ < c.materialGeometryKey_ ∨
            (a.materialGeometryKey_ = c.materialGeometryKey_ ∧
              c.distance_ < a.distance_))))) := by
  have hmask : b.pipelineStateHash &&& 16777215 = b.pipelineStateHash % 2 ^ 24 := by
    rw [show (16777215 : Nat) = 2 ^ 24 - 1 by norm_num, Nat.and_pow_two_sub_one_eq_mod]
  have hshr : b.pipelineStateHash >>> 24 = b.pipelineStateHash / 2 ^ 24 :=
    Nat.shiftRight_eq_div_pow _ _
  have hfold_lt : (b.pipelineStateHash &&& 16777215) ^^^ (b.pipelineStateHash >>> 24) < 2 ^ 24 := by
    apply Nat.xor_lt_two_pow
    · rw [hmask]
      exact Nat.mod_lt _ (by norm_num)
    · rw [hshr]
      omega
  have hkey : (mkBaseSceneBatchSortedByState b).pipelineStateKey_ =
      b.renderOrder * 2 ^ 56 + b.shaderHash * 2 ^ 24 +
        ((b.pipelineStateHash &&& 16777215) ^^^ (b.pipelineStateHash >>> 24)) := by
    show (b.renderOrder <<< 56) ||| (b.shaderHash <<< 24) ||| _ = _
    rw [Nat.shiftLeft_eq, Nat.shiftLeft_eq]
    have h1 : b.renderOrder * 2 ^ 56 ||| b.shaderHash * 2 ^ 24 =
        b.renderOrder * 2 ^ 56 + b.shaderHash * 2 ^ 24 := by
      rw [mul_comm b.renderOrder]
      rw [← Nat.mul_add_lt_is_or (by omega) b.renderOrder]
    have h2 : b.renderOrder * 2 ^ 56 + b.shaderHash * 2 ^ 24 =
        2 ^ 24 * (b.renderOrder * 2 ^ 32 + b.shaderHash) := by ring
    rw [h1, h2, ← Nat.mul_add_lt_is_or hfold_lt]
  have hmx : b.materialHash ^^^ b.lightmapIndex_ < 2 ^ 32 := Nat.xor_lt_two_pow hmh hlm
  have hmgk : (mkBaseSceneBatchSortedByState b).materialGeometryKey_ =
      (b.materialHash ^^^ b.lightmapIndex_) * 2 ^ 32 + b.geometryHash := by
    show ((b.materialHash ^^^ b.lightmapIndex_) <<< 32) ||| b.geometryHash = _
    rw [Nat.shiftLeft_eq, mul_comm _ (2 ^ 32), ← Nat.mul_add_lt_is_or hgh, mul_comm]
  rw [hmask, hshr] at hkey hfold_lt
  refine ⟨?_, ?_, ?_, ?_, ?_, ?_, ?_, fun a c => stateLt_iff a c⟩
  all_goals omega

/-- C3 counterexample: for two light batches with equal light index,
equal pipeline-state key and equal material/geometry key but different
distances, the comparison the claim describes (falling back to the full
state-ordered comparison with its descending-distance tie-break) yields
`true`, while the source `LightBatchSortedByState::operator<` never
consults distance and yields `false`. -/
theorem lightBatchLt_ignores_distance :
    (LightBatchSortedByState.mk ⟨1, 2, 5⟩ 3).lightIndex_ =
      (LightBatchSortedByState.mk ⟨1, 2, 1⟩ 3).lightIndex_ ∧
    (LightBatchSortedByState.mk ⟨1, 2, 5⟩ 3).pipelineStateKey_ =
      (LightBatchSortedByState.mk ⟨1, 2, 1⟩ 3).pipelineStateKey_ ∧
    (LightBatchSortedByState.mk ⟨1, 2, 5⟩ 3).materialGeometryKey_ =
      (LightBatchSortedByState.mk ⟨1, 2, 1⟩ 3).materialGeometryKey_ ∧
    (LightBatchSortedByState.mk ⟨1, 2, 1⟩ 3).distance_ <
      (LightBatchSortedByState.mk ⟨1, 2, 5⟩ 3).distance_ ∧
    lightBatchLtClaimed (LightBatchSortedByState.mk ⟨1, 2, 5⟩ 3)
      (LightBatchSortedByState.mk ⟨1, 2, 1⟩ 3) = true ∧
    LightBatchSortedByState.lt (LightBatchSortedByState.mk ⟨1, 2, 5⟩ 3)
      (LightBatchSortedByState.mk ⟨1, 2, 1⟩ 3) = false := by
  decide

/-- C3 (amended): for every pair of light-tier batches the comparison
uses the light index as primary discriminant and for equal light
indices falls back to the pipeline-state key and then the
material/geometry key; distance is never consulted (there is no
distance tie-break). -/
theorem lightBatchLt_characterization :
    (∀ a b : LightBatchSortedByState, a.lt b = true ↔
      (a.lightIndex_ < b.lightIndex_ ∨
        (a.lightIndex_ = b.lightIndex_ ∧
          (a.pipelineStateKey_ < b.pipelineStateKey_ ∨
            (a.pipelineStateKey_ = b.pipelineStateKey_ ∧
              a.materialGeometryKey_ < b.materialGeometryKey_))))) ∧
    (∀ a b : LightBatchSortedByState, ∀ d₁ d₂ : Int,
      LightBatchSortedByState.lt
        ⟨⟨a.pipelineStateKey_, a.materialGeometryKey_, d₁⟩, a.lightIndex_⟩
        ⟨⟨b.pipelineStateKey_, b.materialGeometryKey_, d₂⟩, b.lightIndex_⟩ = a.lt b) :=
  ⟨lightLt_iff, fun _ _ _ _ => rfl⟩

/-- C6: the back-to-front comparison orders by material render order
first, and for equal render order by ascending distance (nearer batch
compares less); the constructor stores exactly the material render
order and the source batch distance. -/
theorem backToFrontLt_characterization :
    (∀ b : BatchSortValues,
      (mkBaseSceneBatchSortedBackToFront b).renderOrder_ = b.renderOrder ∧
      (mkBaseSceneBatchSortedBackToFront b).distance_ = b.distance_) ∧
    (∀ a b : BaseSceneBatchSortedBackToFront, a.lt b = true ↔
      (a.renderOrder_ < b.renderOrder_ ∨
        (a.renderOrder_ = b.renderOrder_ ∧ a.distance_ < b.distance_))) :=
  ⟨fun _ => ⟨rfl, rfl⟩, backToFrontLt_iff⟩

/-- C5: each batch comparison (state-ordered, back-to-front, light-tier)
is irreflexive, transitive and asymmetric; two batches that compare
equal both ways agree on every field the comparison consults (they are
interchangeable for that ordering); and re-sorting a sorted batch list
yields the identical sequence (idempotence of the sort). -/
theorem sortComparisons_strict_order :
    (∀ a : BaseSceneBatchSortedByState, a.lt a = false) ∧
    (∀ a b c : BaseSceneBatchSortedByState,
      a.lt b = true → b.lt c = true → a.lt c = true) ∧
    (∀ a b : BaseSceneBatchSortedByState, a.lt b = true → b.lt a = false) ∧
    (∀ a b : BaseSceneBatchSortedByState, a.lt b = false → b.lt a = false →
      a.pipelineStateKey_ = b.pipelineStateKey_ ∧
      a.materialGeometryKey_ = b.materialGeometryKey_ ∧ a.distance_ = b.distance_) ∧
    (∀ l, sortByState (sortByState l) = sortByState l) ∧
    (∀ a : BaseSceneBatchSortedBackToFront, a.lt a = false) ∧
    (∀ a b c : BaseSceneBatchSortedBackToFront,
      a.lt b = true → b.lt c = true → a.lt c = true) ∧
    (∀ a b : BaseSceneBatchSortedBackToFront, a.lt b = true → b.lt a = false) ∧
    (∀ a b : BaseSceneBatchSortedBackToFront, a.lt b = false → b.lt a = false →
      a.renderOrder_ = b.renderOrder_ ∧ a.distance_ = b.distance_) ∧
    (∀ l, sortBackToFront (sortBackToFront l) = sortBackToFront l) ∧
    (∀ a : LightBatchSortedByState, a.lt a = false) ∧
    (∀ a b c : LightBatchSortedByState,
      a.lt b = true → b.lt c = true → a.lt c = true) ∧
    (∀ a b : LightBatchSortedByState, a.lt b = true → b.lt a = false) ∧
    (∀ a b : LightBatchSortedByState, a.lt b = false → b.lt a = false →
      a.lightIndex_ = b.lightIndex_ ∧ a.pipelineStateKey_ = b.pipelineStateKey_ ∧
      a.materialGeometryKey_ = b.materialGeometryKey_) ∧
    (∀ l, sortLightBatches (sortLightBatches l) = sortLightBatches l) := by
  refine ⟨?_, ?_, ?_, ?_, ?_, ?_, ?_, ?_, ?_, ?_, ?_, ?_, ?_, ?_, ?_⟩
  · intro a
    rw [stateLt_false_iff]
    omega
  · intro a b c hab hbc
    rw [stateLt_iff] at hab hbc ⊢
    omega
  · intro a b hab
    rw [stateLt_iff] at hab
    rw [stateLt_false_iff]
    omega
  · intro a b hab hba
    rw [stateLt_false_iff] at hab hba
    omega
  · intro l
    exact List.mergeSort_of_sorted (List.sorted_mergeSort stateLe_trans stateLe_total _)
  · intro a
    rw [backToFrontLt_false_iff]
    omega
  · intro a b c hab hbc
    rw [backToFrontLt_iff] at hab hbc ⊢
    omega
  · intro a b hab
    rw [backToFrontLt_iff] at hab
    rw [backToFrontLt_false_iff]
    omega
  · intro a b hab hba
    rw [backToFrontLt_false_iff] at hab hba
    omega
  · intro l
    exact List.mergeSort_of_sorted
      (List.sorted_mergeSort backToFrontLe_trans backToFrontLe_total _)
  · intro a
    rw [lightLt_false_iff]
    omega
  · intro a b c hab hbc
    rw [lightLt_iff] at hab hbc ⊢
    omega
  · intro a b hab
    rw [lightLt_iff] at hab
    rw [lightLt_false_iff]
    omega
  · intro a b hab hba
    rw [lightLt_false_iff] at hab hba
    omega
  · intro l
    exact List.mergeSort_of_sorted (List.sorted_mergeSort lightLe_trans lightLe_total _)

/-- Witness for C5 at a concrete input: the asymmetry component applied
to two concrete state-sorted batches. -/
theorem sortComparisons_strict_order_witness :
    BaseSceneBatchSortedByState.lt ⟨0, 0, 5⟩ ⟨1, 0, 5⟩ = true ∧
    BaseSceneBatchSortedByState.lt ⟨1, 0, 5⟩ ⟨0, 0, 5⟩ = false :=
  ⟨by decide, sortComparisons_strict_order.2.2.1 ⟨0, 0, 5⟩ ⟨1, 0, 5⟩ (by decide)⟩

/-- Witness for C4 at a concrete input. -/
theorem stateSortKey_packing_witness :
    (mkBaseSceneBatchSortedByState ⟨0, 3, 5, 7, 11, 13, 17, 2⟩).pipelineStateKey_ / 2 ^ 56 = 3 ∧
    (mkBaseSceneBatchSortedByState ⟨0, 3, 5, 7, 11, 13, 17, 2⟩).pipelineStateKey_ / 2 ^ 24 %
      2 ^ 32 = 5 := by
  have h := stateSortKey_packing ⟨0, 3, 5, 7, 11, 13, 17, 2⟩ (by norm_num) (by norm_num)
    (by norm_num) (by norm_num) (by norm_num) (by norm_num)
  exact ⟨h.1, h.2.1⟩

/-- C10: `GetSortedShadowBatches` produces a list of the same length as
its input, a permutation of the wrapped input batches, with no
inversion under the wrapper's `operator<`. -/
theorem GetSortedShadowBatches_sorted_permutation (batches : List BatchSortValues) :
    (GetSortedShadowBatches batches).length = batches.length ∧
    (GetSortedShadowBatches batches).Perm (batches.map mkBaseSceneBatchSortedByState) ∧
    (GetSortedShadowBatches batches).Pairwise
      (fun a b => BaseSceneBatchSortedByState.lt b a = false) := by
  refine ⟨?_, List.mergeSort_perm _ _, ?_⟩
  · simp [GetSortedShadowBatches]
  · have h := List.sorted_mergeSort stateLe_trans stateLe_total
      (batches.map mkBaseSceneBatchSortedByState)
    exact h.imp fun hab => by simpa [stateLe, Bool.not_eq_true'] using hab

/-! ## Claim theorems: `CustomView::Define` and main light -/

/-- C7: `CustomView::Define` returns `false` exactly when the viewport
has no scene, no camera, or the scene has no `Octree` component; on
success it records the render target, the viewport and the octree's
drawable count. -/
theorem CustomView_Define_characterization (v : CustomView) (rt : Option Nat) (vp : Viewport) :
    ((v.Define rt vp).1 = false ↔
      vp.scene = none ∨ vp.camera = none ∨ vp.scene.bind Scene.octree = none) ∧
    ((v.Define rt vp).1 = true →
      (v.Define rt vp).2.renderTarget_ = rt ∧
      (v.Define rt vp).2.viewport_ = some vp ∧
      ∃ oct, vp.scene.bind Scene.octree = some oct ∧
        (v.Define rt vp).2.numDrawables_ = oct.numDrawables) := by
  rcases vp with ⟨s, c⟩
  rcases s with _ | ⟨o⟩
  · simp [CustomView.Define]
  · rcases c with _ | cam <;> rcases o with _ | oct <;> simp [CustomView.Define]

/-- Witness for C7 at a concrete input: a viewport with scene, camera
and octree makes `Define` succeed and record its arguments. -/
theorem CustomView_Define_witness :
    (CustomView.Define ⟨none, none, none, 0, none, none⟩ (some 7)
        ⟨some ⟨some ⟨42⟩⟩, some 1⟩).2.renderTarget_ = some 7 ∧
    (CustomView.Define ⟨none, none, none, 0, none, none⟩ (some 7)
        ⟨some ⟨some ⟨42⟩⟩, some 1⟩).2.viewport_ = some ⟨some ⟨some ⟨42⟩⟩, some 1⟩ ∧
    ∃ oct, (some (Scene.mk (some ⟨42⟩))).bind Scene.octree = some oct ∧
      (CustomView.Define ⟨none, none, none, 0, none, none⟩ (some 7)
        ⟨some ⟨some ⟨42⟩⟩, some 1⟩).2.numDrawables_ = oct.numDrawables :=
  (CustomView_Define_characterization ⟨none, none, none, 0, none, none⟩ (some 7)
    ⟨some ⟨some ⟨42⟩⟩, some 1⟩).2 (by decide)

/-- Helper: the light selected by the `FindMainLight` fold is the
initial best or a member of the scanned list. -/
theorem findMainLight_foldl_mem :
    ∀ (l : List Light) (b : Option Light) (x : Light),
      l.foldl findMainLightStep b = some x → b = some x ∨ x ∈ l := by
  intro l
  induction l with
  | nil => intro b x h; exact Or.inl h
  | cons a t ih =>
    intro b x h
    rcases ih (findMainLightStep b a) x h with h' | h'
    · by_cases ha : a.lightType = LightType.directional
      · rcases b with _ | c
        · simp only [findMainLightStep, if_pos ha] at h'
          exact Or.inr (by simp [← Option.some_inj.1 h'])
        · simp only [findMainLightStep, if_pos ha] at h'
          by_cases hb : betterMainLight a c = true
          · rw [if_pos hb] at h'
            exact Or.inr (by simp [← Option.some_inj.1 h'])
          · rw [if_neg hb] at h'
            exact Or.inl h'
      · simp only [findMainLightStep, if_neg ha] at h'
        exact Or.inl h'
    · exact Or.inr (List.mem_cons_of_mem a h')

/-- Helper: `FindMainLight` returns the sentinel or an in-range index. -/
theorem FindMainLight_inbounds (lights : List Light) :
    FindMainLight lights = M_MAX_UNSIGNED ∨ FindMainLight lights < lights.length := by
  unfold FindMainLight
  cases h : FindMainLight_selected lights with
  | none => exact Or.inl rfl
  | some x =>
    refine Or.inr (List.indexOf_lt_length.2 ?_)
    rcases findMainLight_foldl_mem lights none x h with h' | h'
    · cases h'
    · exact h'

/-- C9: `GetMainLight` returns null exactly when the main-light index
holds the `M_MAX_UNSIGNED` sentinel; otherwise (under the invariant
established by `FindMainLight`, which only ever returns the sentinel or
an in-range index) it returns the visible-light entry at
`GetMainLightIndex()`. -/
theorem GetMainLight_null_iff_sentinel (s : SceneBatchCollector)
    (hinv : s.mainLightIndex_ = M_MAX_UNSIGNED ∨
      s.mainLightIndex_ < s.visibleLights_.length) :
    (s.GetMainLight = none ↔ s.mainLightIndex_ = M_MAX_UNSIGNED) ∧
    (∀ h : s.GetMainLightIndex < s.visibleLights_.length,
      s.mainLightIndex_ ≠ M_MAX_UNSIGNED →
        s.GetMainLight = some (s.visibleLights_.get ⟨s.GetMainLightIndex, h⟩)) ∧
    (∀ lights : List Light,
      FindMainLight lights = M_MAX_UNSIGNED ∨ FindMainLight lights < lights.length) := by
  refine ⟨⟨?_, ?_⟩, ?_, fun lights => FindMainLight_inbounds lights⟩
  · intro h
    by_contra hne
    rcases hinv with h' | h'
    · exact hne h'
    · rw [SceneBatchCollector.GetMainLight, if_pos hne, List.getElem?_eq_getElem h'] at h
      cases h
  · intro h
    rw [SceneBatchCollector.GetMainLight, if_neg (by simp [h])]
  · intro h hne
    simp only [SceneBatchCollector.GetMainLightIndex] at h
    rw [SceneBatchCollector.GetMainLight, if_pos hne, List.getElem?_eq_getElem h]
    simp [SceneBatchCollector.GetMainLightIndex]

/-- Witness for C9 at a concrete input: one visible light, main index 0. -/
theorem GetMainLight_null_iff_sentinel_witness :
    SceneBatchCollector.GetMainLight ⟨[7], 0⟩ = none ↔ (0 : Nat) = M_MAX_UNSIGNED :=
  (GetMainLight_null_iff_sentinel ⟨[7], 0⟩ (Or.inr (by decide))).1

/-! ## Claim theorems: `FindMainLight` determinism -/

theorem betterMainLight_iff (a b : Light) :
    betterMainLight a b = true ↔
      (b.brightness < a.brightness ∨ (a.brightness = b.brightness ∧ a.id < b.id)) := by
  simp [betterMainLight]

theorem betterMainLight_false_iff (a b : Light) :
    betterMainLight a b = false ↔
      ¬ (b.brightness < a.brightness ∨ (a.brightness = b.brightness ∧ a.id < b.id)) := by
  rw [Bool.eq_false_iff, Ne, betterMainLight_iff]

theorem betterMainLight_trans {a b c : Light} (hab : betterMainLight a b = true)
    (hbc : betterMainLight b c = true) : betterMainLight a c = true := by
  rw [betterMainLight_iff] at hab hbc ⊢
  omega

theorem betterMainLight_asymm {a b : Light} (hab : betterMainLight a b = true) :
    betterMainLight b a = false := by
  rw [betterMainLight_iff] at hab
  rw [betterMainLight_false_iff]
  omega

theorem betterMainLight_total {a b : Light} (hid : a.id ≠ b.id) :
    betterMainLight a b = true ∨ betterMainLight b a = true := by
  rw [betterMainLight_iff, betterMainLight_iff]
  omega

/-- Two `FindMainLight` scan steps commute whenever the two lights are
identical or have distinct stable identities: the selection is a
maximum for the (brightness, identity) ordering and does not depend on
scan order. -/
theorem findMainLightStep_comm (x y : Light) (hxy : x = y ∨ x.id ≠ y.id) (z : Option Light) :
    findMainLightStep (findMainLightStep z x) y = findMainLightStep (findMainLightStep z y) x := by
  rcases hxy with rfl | hid
  · rfl
  by_cases dx : x.lightType = LightType.directional <;>
    by_cases dy : y.lightType = LightType.directional
  · rcases z with _ | b
    · simp only [findMainLightStep, if_pos dx, if_pos dy]
      rcases betterMainLight_total hid with h | h
      · have h' := betterMainLight_asymm h
        simp only [if_pos h, if_neg (by simp [h'] : ¬ betterMainLight y x = true)]
      · have h' := betterMainLight_asymm h
        simp only [if_pos h, if_neg (by simp [h'] : ¬ betterMainLight x y = true)]
    · simp only [findMainLightStep, if_pos dx, if_pos dy]
      by_cases hxb : betterMainLight x b = true <;> by_cases hyb : betterMainLight y b = true
      · simp only [if_pos hxb, if_pos hyb]
        rcases betterMainLight_total hid with h | h
        · have h' := betterMainLight_asymm h
          simp only [if_pos h, if_neg (by simp [h'] : ¬ betterMainLight y x = true)]
        · have h' := betterMainLight_asymm h
          simp only [if_pos h, if_neg (by simp [h'] : ¬ betterMainLight x y = true)]
      · simp only [if_pos hxb, if_neg hyb]
        have hyx : ¬ betterMainLight y x = true := fun h =>
          hyb (betterMainLight_trans h hxb)
        simp only [if_pos hxb, if_neg hyx]
      · simp only [if_neg hxb, if_pos hyb]
        have hxy' : ¬ betterMainLight x y = true := fun h =>
          hxb (betterMainLight_trans h hyb)
        simp only [if_pos hyb, if_neg hxy']
      · simp only [if_neg hxb, if_neg hyb]
  · rcases z with _ | b <;>
      simp only [findMainLightStep, if_pos dx, if_neg dy]
  · rcases z with _ | b <;>
      simp only [findMainLightStep, if_neg dx, if_pos dy]
  · simp only [findMainLightStep, if_neg dx, if_neg dy]

/-- C8 (spec-modelled): `FindMainLight` is deterministic — a pure
function of the visible-light list (repeated calls agree), and the
light it selects does not depend on the iteration order of the
visible-light set: any permutation of a list of lights with distinct
stable identities selects the same light. -/
theorem FindMainLight_deterministic (l₁ l₂ : List Light)
    (hperm : l₁.Perm l₂) (hnodup : (l₁.map Light.id).Nodup) :
    FindMainLight l₁ = FindMainLight l₁ ∧
    FindMainLight_selected l₁ = FindMainLight_selected l₂ := by
  refine ⟨rfl, ?_⟩
  unfold FindMainLight_selected
  refine hperm.foldl_eq' ?_ none
  intro x hx y hy z
  apply findMainLightStep_comm
  by_cases hxy : x = y
  · exact Or.inl hxy
  · exact Or.inr fun hid => hxy (List.inj_on_of_nodup_map hnodup hx hy hid)

/-- Witness for C8 at a concrete input: two equally bright directional
lights scanned in either order select the same light (identity 0). -/
theorem FindMainLight_deterministic_witness :
    FindMainLight_selected
        [Light.mk 0 LightType.directional 5, Light.mk 1 LightType.directional 5] =
      FindMainLight_selected
        [Light.mk 1 LightType.directional 5, Light.mk 0 LightType.directional 5] :=
  (FindMainLight_deterministic _ _ (by decide) (by decide)).2

/-! ## Light accumulator: ranked-insertion lemmas -/

theorem insertRanked_perm (l : List LightAccEntry) (e : LightAccEntry) :
    (insertRanked l e).Perm (e :: l) := by
  induction l with
  | nil => simp [insertRanked]
  | cons x xs ih =>
    rw [insertRanked]
    by_cases h : x.importance < e.importance
    · rw [if_pos h]
    · rw [if_neg h]
      exact (List.Perm.cons x ih).trans (List.Perm.swap e x xs)

theorem insertRanked_length (l : List LightAccEntry) (e : LightAccEntry) :
    (insertRanked l e).length = l.length + 1 := by
  simpa using (insertRanked_perm l e).length_eq

theorem mem_insertRanked_self (l : List LightAccEntry) (e : LightAccEntry) :
    e ∈ insertRanked l e :=
  (insertRanked_perm l e).mem_iff.2 (List.mem_cons_self e l)

theorem insertRanked_pairwise {l : List LightAccEntry} (h : l.Pairwise impGE)
    (e : LightAccEntry) : (insertRanked l e).Pairwise impGE := by
  induction l with
  | nil => simp [insertRanked, impGE]
  | cons x xs ih =>
    rw [insertRanked]
    rcases List.pairwise_cons.1 h with ⟨hx, hxs⟩
    by_cases hc : x.importance < e.importance
    · rw [if_pos hc]
      refine List.pairwise_cons.2 ⟨?_, h⟩
      intro b hb
      rcases List.mem_cons.1 hb with rfl | hb
      · exact le_of_lt hc
      · exact le_trans (hx b hb) (le_of_lt hc)
    · rw [if_neg hc]
      refine List.pairwise_cons.2 ⟨?_, ih hxs⟩
      intro b hb
      rcases List.mem_cons.1 ((insertRanked_perm xs e).mem_iff.1 hb) with rfl | hb'
      · exact le_of_not_lt hc
      · exact hx b hb'

theorem pairwise_getLast_min {l : List LightAccEntry} (h : l.Pairwise impGE)
    {m : LightAccEntry} (hm : l.getLast? = some m) :
    ∀ f ∈ l, m.importance ≤ f.importance := by
  induction l with
  | nil => cases hm
  | cons x xs ih =>
    rcases List.pairwise_cons.1 h with ⟨hx, hxs⟩
    intro f hf
    cases xs with
    | nil =>
      rcases List.mem_cons.1 hf with rfl | hf'
      · cases hm
        exact le_refl _
      · cases hf'
    | cons y ys =>
      rw [List.getLast?_cons_cons] at hm
      rcases List.mem_cons.1 hf with rfl | hf'
      · exact hx m (List.mem_of_getLast?_eq_some hm)
      · exact ih hxs hm f hf'

theorem tierAdmit_pairwise (cap : Nat) {tier : List LightAccEntry}
    (h : tier.Pairwise impGE) (e : LightAccEntry) :
    (tierAdmit cap tier e).1.Pairwise impGE := by
  unfold tierAdmit
  split
  · exact insertRanked_pairwise h e
  · split
    · exact h
    · split
      · exact List.Pairwise.sublist (List.dropLast_sublist _) (insertRanked_pairwise h e)
      · exact h

theorem tierAdmit_length (cap : Nat) {tier : List LightAccEntry}
    (hlen : tier.length ≤ cap) (e : LightAccEntry) :
    (tierAdmit cap tier e).1.length ≤ cap := by
  unfold tierAdmit
  split
  · rename_i h
    simp only [insertRanked_length]
    omega
  · split
    · exact hlen
    · split
      · simp only [List.length_dropLast, insertRanked_length]
        omega
      · exact hlen

/-- Invariant preservation of one accumulator insertion: both tiers stay
sorted in descending importance and within capacity. -/
theorem AccumulateLight_invariant (P V : Nat) (hP : 0 < P)
    {acc : DrawableLightAccumulator}
    (h1 : acc.pixelLights.Pairwise impGE) (h2 : acc.pixelLights.length ≤ P)
    (h3 : acc.vertexLights.Pairwise impGE) (h4 : acc.vertexLights.length ≤ V)
    (e : LightAccEntry) (isImportant : Bool) :
    (AccumulateLight P V acc e isImportant).pixelLights.Pairwise impGE ∧
    (AccumulateLight P V acc e isImportant).pixelLights.length ≤ P ∧
    (AccumulateLight P V acc e isImportant).vertexLights.Pairwise impGE ∧
    (AccumulateLight P V acc e isImportant).vertexLights.length ≤ V := by
  unfold AccumulateLight
  split
  · split
    · rename_i hlt
      exact ⟨insertRanked_pairwise h1 e, by simp [insertRanked_length]; omega, h3, h4⟩
    · split
      · rename_i hlt y hnone
        rw [List.getLast?_eq_none_iff] at hnone
        rw [hnone] at hlt
        exact absurd hP (by simpa using hlt)
      · rename_i hlt y m hsome
        have hne : acc.pixelLights ≠ [] := by
          intro h
          rw [h] at hsome
          cases hsome
        have hlen1 : 1 ≤ acc.pixelLights.length := by
          cases h : acc.pixelLights with
          | nil => exact absurd h hne
          | cons a t => simp
        refine ⟨insertRanked_pairwise
            (List.Pairwise.sublist (List.dropLast_sublist _) h1) e, ?_,
          tierAdmit_pairwise V h3 m, tierAdmit_length V h4 m⟩
        simp only [insertRanked_length, List.length_dropLast]
        omega
  · split
    · rename_i pixel hpix
      have : pixel = (tierAdmit P acc.pixelLights e).1 := by rw [hpix]
      rw [this]
      exact ⟨tierAdmit_pairwise P h1 e, tierAdmit_length P h2 e, h3, h4⟩
    · rename_i pixel m hpix
      have : pixel = (tierAdmit P acc.pixelLights e).1 := by rw [hpix]
      rw [this]
      exact ⟨tierAdmit_pairwise P h1 e, tierAdmit_length P h2 e,
        tierAdmit_pairwise V h3 m, tierAdmit_length V h4 m⟩

/-- Invariants of every reachable accumulator state. -/
theorem accumulateLights_invariant (P V : Nat) (hP : 0 < P)
    (seq : List (LightAccEntry × Bool)) :
    (accumulateLights P V seq).pixelLights.Pairwise impGE ∧
    (accumulateLights P V seq).pixelLights.length ≤ P ∧
    (accumulateLights P V seq).vertexLights.Pairwise impGE ∧
    (accumulateLights P V seq).vertexLights.length ≤ V := by
  have main : ∀ (l : List (LightAccEntry × Bool)) (acc : DrawableLightAccumulator),
      acc.pixelLights.Pairwise impGE → acc.pixelLights.length ≤ P →
      acc.vertexLights.Pairwise impGE → acc.vertexLights.length ≤ V →
      (l.foldl (fun a eb => AccumulateLight P V a eb.1 eb.2) acc).pixelLights.Pairwise impGE ∧
      (l.foldl (fun a eb => AccumulateLight P V a eb.1 eb.2) acc).pixelLights.length ≤ P ∧
      (l.foldl (fun a eb => AccumulateLight P V a eb.1 eb.2) acc).vertexLights.Pairwise impGE ∧
      (l.foldl (fun a eb => AccumulateLight P V a eb.1 eb.2) acc).vertexLights.length ≤ V := by
    intro l
    induction l with
    | nil => exact fun acc h1 h2 h3 h4 => ⟨h1, h2, h3, h4⟩
    | cons eb t ih =>
      intro acc h1 h2 h3 h4
      have h := AccumulateLight_invariant P V hP h1 h2 h3 h4 eb.1 eb.2
      exact ih _ h.1 h.2.1 h.2.2.1 h.2.2.2
  exact main seq ⟨[], []⟩ (by simp) (by simp) (by simp) (by simp)

/-- C2 (spec-modelled): inserting a light with `isImportant = true` into
any reachable accumulator (pixel capacity 4, vertex capacity 4) always
places it in the pixel tier, and the tier stays within capacity.  When
the pixel tier is already full the evicted entry is the last entry of
the descending-importance tier — a lowest-importance entry, and (by the
stable ordering invariant `accumulateLights_invariant`, ties keeping
earlier-inserted entries first) the most recently inserted among tied
minima, so the first-inserted entry wins — and the new tier holds the
important light plus all remaining entries. -/
theorem AccumulateLight_important_forced_pixel (seq : List (LightAccEntry × Bool))
    (e : LightAccEntry) :
    e ∈ (AccumulateLight 4 4 (accumulateLights 4 4 seq) e true).pixelLights ∧
    (AccumulateLight 4 4 (accumulateLights 4 4 seq) e true).pixelLights.length ≤ 4 ∧
    ((accumulateLights 4 4 seq).pixelLights.length = 4 →
      ∃ m, (accumulateLights 4 4 seq).pixelLights.getLast? = some m ∧
        (∀ f ∈ (accumulateLights 4 4 seq).pixelLights, m.importance ≤ f.importance) ∧
        (AccumulateLight 4 4 (accumulateLights 4 4 seq) e true).pixelLights.Perm
          (e :: (accumulateLights 4 4 seq).pixelLights.dropLast)) := by
  have hinv := accumulateLights_invariant 4 4 (by norm_num) seq
  have hstep := AccumulateLight_invariant 4 4 (by norm_num) hinv.1 hinv.2.1
    hinv.2.2.1 hinv.2.2.2 e true
  refine ⟨?_, hstep.2.1, ?_⟩
  · unfold AccumulateLight
    by_cases hlt : (accumulateLights 4 4 seq).pixelLights.length < 4
    · rw [if_pos hlt]
      exact mem_insertRanked_self _ _
    · rw [if_neg hlt]
      cases hsome : (accumulateLights 4 4 seq).pixelLights.getLast? with
      | none => exact mem_insertRanked_self _ _
      | some m => exact mem_insertRanked_self _ _
  · intro hfull
    have hne : (accumulateLights 4 4 seq).pixelLights ≠ [] := by
      intro h
      rw [h] at hfull
      cases hfull
    cases hsome : (accumulateLights 4 4 seq).pixelLights.getLast? with
    | none => exact absurd (List.getLast?_eq_none_iff.1 hsome) hne
    | some m =>
      refine ⟨m, rfl, pairwise_getLast_min hinv.1 hsome, ?_⟩
      unfold AccumulateLight
      rw [if_neg (by omega : ¬ (accumulateLights 4 4 seq).pixelLights.length < 4), hsome]
      exact insertRanked_perm _ _

/-- Witness for C2 at a concrete input: a pixel tier holding four
higher-importance non-important lights, then an important light of
importance 1 is forced in, evicting the minimum (index 3). -/
theorem AccumulateLight_important_forced_pixel_witness :
    ∃ m, (accumulateLights 4 4
        [(⟨0, 10⟩, false), (⟨1, 9⟩, false), (⟨2, 8⟩, false),
          (⟨3, 7⟩, false)]).pixelLights.getLast? = some m ∧
      (∀ f ∈ (accumulateLights 4 4
        [(⟨0, 10⟩, false), (⟨1, 9⟩, false), (⟨2, 8⟩, false),
          (⟨3, 7⟩, false)]).pixelLights, m.importance ≤ f.importance) ∧
      (AccumulateLight 4 4 (accumulateLights 4 4
        [(⟨0, 10⟩, false), (⟨1, 9⟩, false), (⟨2, 8⟩, false),
          (⟨3, 7⟩, false)]) ⟨7, 1⟩ true).pixelLights.Perm
        (⟨7, 1⟩ :: (accumulateLights 4 4
        [(⟨0, 10⟩, false), (⟨1, 9⟩, false), (⟨2, 8⟩, false),
          (⟨3, 7⟩, false)]).pixelLights.dropLast) :=
  (AccumulateLight_important_forced_pixel
    [(⟨0, 10⟩, false), (⟨1, 9⟩, false), (⟨2, 8⟩, false), (⟨3, 7⟩, false)]
    ⟨7, 1⟩).2.2 (by decide)

/-! ## Light accumulator: positional lemmas for the bounded ranking -/

theorem insertRanked_ne_nil (l : List LightAccEntry) (e : LightAccEntry) :
    insertRanked l e ≠ [] := by
  intro h
  have hl := insertRanked_length l e
  rw [h] at hl
  simp at hl

theorem getLast?_cons_ne_nil (x : LightAccEntry) {t : List LightAccEntry} (h : t ≠ []) :
    (x :: t).getLast? = t.getLast? := by
  cases t with
  | nil => exact absurd rfl h
  | cons y ys => exact List.getLast?_cons_cons

/-- Truncating to `K` entries commutes with ranked insertion into an
already-truncated list. -/
theorem take_insertRanked_take (K : Nat) (S : List LightAccEntry) (e : LightAccEntry) :
    (insertRanked (S.take K) e).take K = (insertRanked S e).take K := by
  induction S generalizing K with
  | nil => simp
  | cons x xs ih =>
    cases K with
    | zero => simp
    | succ k =>
      rw [List.take_succ_cons]
      simp only [insertRanked]
      by_cases h : x.importance < e.importance
      · rw [if_pos h, if_pos h, List.take_succ_cons, List.take_succ_cons]
        congr 1
        cases k with
        | zero => simp
        | succ j =>
          rw [List.take_succ_cons, List.take_succ_cons, List.take_take,
            Nat.min_eq_left (by omega)]
      · rw [if_neg h, if_neg h, List.take_succ_cons, List.take_succ_cons, ih]

/-- Ranked insertion of an entry below everything in the first `P`
positions does not disturb those positions: it lands in the suffix. -/
theorem insertRanked_split_below :
    ∀ (R : List LightAccEntry) (P : Nat) (e : LightAccEntry), P ≤ R.length →
      (∀ x ∈ R.take P, e.importance < x.importance) →
      (insertRanked R e).take P = R.take P ∧
      (insertRanked R e).drop P = insertRanked (R.drop P) e := by
  intro R
  induction R with
  | nil =>
    intro P e hP _
    have hP0 : P = 0 := by simpa using hP
    subst hP0
    simp
  | cons x xs ih =>
    intro P e hP hlt
    cases P with
    | zero => simp
    | succ p =>
      have hx : e.importance < x.importance := hlt x (by simp)
      simp only [insertRanked, if_neg (by omega : ¬ x.importance < e.importance)]
      have hrec := ih p e (by simpa using hP)
        (fun y hy => hlt y (by rw [List.take_succ_cons]; exact List.mem_cons_of_mem x hy))
      constructor
      · rw [List.take_succ_cons, List.take_succ_cons, hrec.1]
      · rw [List.drop_succ_cons, List.drop_succ_cons, hrec.2]

theorem dropLast_cons_take (x : LightAccEntry) (xs : List LightAccEntry) (p : Nat)
    (h : p ≤ xs.length) : (x :: xs.take p).dropLast = (x :: xs).take p := by
  cases p with
  | zero => simp
  | succ q =>
    have hlen : (x :: xs.take (q + 1)).length - 1 = q + 1 := by
      simp [List.length_take_of_le h]
    rw [List.dropLast_eq_take, hlen, List.take_succ_cons, List.take_succ_cons,
      List.take_take, Nat.min_eq_left (by omega)]

theorem getLast_take_drop :
    ∀ (xs : List LightAccEntry) (p : Nat) (x m : LightAccEntry), p ≤ xs.length →
      (x :: xs.take p).getLast? = some m → (x :: xs).drop p = m :: xs.drop p := by
  intro xs
  induction xs with
  | nil =>
    intro p x m hp hm
    have hp0 : p = 0 := by simpa using hp
    subst hp0
    simp only [List.take_nil, List.getLast?_singleton, Option.some_inj] at hm
    subst hm
    simp
  | cons y ys ih =>
    intro p x m hp hm
    cases p with
    | zero =>
      simp only [List.take_zero, List.getLast?_singleton, Option.some_inj] at hm
      subst hm
      simp
    | succ q =>
      rw [List.take_succ_cons, List.getLast?_cons_cons] at hm
      rw [List.drop_succ_cons, List.drop_succ_cons]
      exact ih q y m (by simpa using hp) hm

/-- Ranked insertion of an entry that beats the minimum of the first `P`
positions: the first `P` positions of the result are the truncated
insertion into the old prefix, and the old prefix minimum `m` is pushed
out into the suffix. -/
theorem insertRanked_split_beats :
    ∀ (R : List LightAccEntry) (P : Nat) (e m : LightAccEntry), P ≤ R.length →
      (R.take P).getLast? = some m → m.importance < e.importance →
      (insertRanked R e).take P = (insertRanked (R.take P) e).dropLast ∧
      (insertRanked R e).drop P = m :: R.drop P := by
  intro R
  induction R with
  | nil =>
    intro P e m hP hm _
    have hP0 : P = 0 := by simpa using hP
    subst hP0
    cases hm
  | cons x xs ih =>
    intro P e m hP hm hbeat
    cases P with
    | zero => cases hm
    | succ p =>
      rw [List.take_succ_cons] at hm
      by_cases hc : x.importance < e.importance
      · constructor
        · rw [List.take_succ_cons]
          simp only [insertRanked, if_pos hc]
          rw [List.take_succ_cons,
            List.dropLast_cons_of_ne_nil (by simp : (x :: xs.take p) ≠ []),
            dropLast_cons_take x xs p (by simpa using hP)]
        · simp only [insertRanked, if_pos hc]
          rw [List.drop_succ_cons, List.drop_succ_cons]
          exact getLast_take_drop xs p x m (by simpa using hP) hm
      · cases p with
        | zero =>
          simp only [List.take_zero, List.getLast?_singleton, Option.some_inj] at hm
          subst hm
          exact absurd hbeat hc
        | succ q =>
          have hxs : q + 1 ≤ xs.length := by simpa using hP
          have htake_ne : xs.take (q + 1) ≠ [] := by
            intro hnil
            have hl := List.length_take_of_le hxs
            rw [hnil] at hl
            simp at hl
          have hm' : (xs.take (q + 1)).getLast? = some m := by
            rwa [getLast?_cons_ne_nil x htake_ne] at hm
          have base := ih (q + 1) e m hxs hm' hbeat
          have hcons : insertRanked (x :: xs.take (q + 1)) e =
              x :: insertRanked (xs.take (q + 1)) e := by
            simp only [insertRanked, if_neg hc]
          constructor
          · rw [List.take_succ_cons]
            simp only [insertRanked, if_neg hc]
            rw [List.take_succ_cons, base.1,
              List.dropLast_cons_of_ne_nil (insertRanked_ne_nil _ _)]
          · simp only [insertRanked, if_neg hc]
            rw [List.drop_succ_cons, List.drop_succ_cons, base.2]

/-- Inserting an entry strictly above everything lands at the head. -/
theorem insertRanked_all_lt {v : List LightAccEntry} {m : LightAccEntry}
    (h : ∀ x ∈ v, x.importance < m.importance) : insertRanked v m = m :: v := by
  cases v with
  | nil => rfl
  | cons x t => simp only [insertRanked, if_pos (h x (by simp))]

/-- Inserting an entry that beats nothing lands at the tail. -/
theorem insertRanked_all_ge {v : List LightAccEntry} {e : LightAccEntry}
    (h : ∀ x ∈ v, ¬ x.importance < e.importance) : insertRanked v e = v ++ [e] := by
  induction v with
  | nil => rfl
  | cons x t ih =>
    simp only [insertRanked, if_neg (h x (by simp))]
    rw [ih (fun y hy => h y (List.mem_cons_of_mem x hy))]
    rfl

/-! ## Light accumulator: coupling with the bounded ranked list -/

theorem AccumulateLight_false (P V : Nat) (acc : DrawableLightAccumulator)
    (e : LightAccEntry) :
    AccumulateLight P V acc e false =
      match tierAdmit P acc.pixelLights e with
      | (pixel, none) => { acc with pixelLights := pixel }
      | (pixel, some m) =>
        { pixelLights := pixel, vertexLights := (tierAdmit V acc.vertexLights m).1 } := rfl

theorem tierAdmit_of_lt (cap : Nat) (tier : List LightAccEntry) (e : LightAccEntry)
    (h : tier.length < cap) : tierAdmit cap tier e = (insertRanked tier e, none) := by
  unfold tierAdmit
  rw [if_pos h]

theorem tierAdmit_of_full_beats (cap : Nat) (tier : List LightAccEntry)
    (e m : LightAccEntry) (h : ¬ tier.length < cap) (hm : tier.getLast? = some m)
    (hb : m.importance < e.importance) :
    tierAdmit cap tier e = ((insertRanked tier e).dropLast, some m) := by
  unfold tierAdmit
  rw [if_neg h]
  split
  · rename_i y heq
    rw [hm] at heq
    cases heq
  · rename_i y m' heq
    rw [hm] at heq
    injection heq with h'
    subst h'
    rw [if_pos hb]

theorem tierAdmit_of_full_fails (cap : Nat) (tier : List LightAccEntry)
    (e m : LightAccEntry) (h : ¬ tier.length < cap) (hm : tier.getLast? = some m)
    (hb : ¬ m.importance < e.importance) :
    tierAdmit cap tier e = (tier, some e) := by
  unfold tierAdmit
  rw [if_neg h]
  split
  · rfl
  · rename_i y m' heq
    rw [hm] at heq
    injection heq with h'
    subst h'
    rw [if_neg hb]

/-- Coupling step: one non-important insertion into the split view of a
sorted bounded list `R` (pixel = first `P`, vertex = rest) equals the
split view of the truncated ranked insertion into `R`. -/
theorem AccumulateLight_split_step (P V : Nat) (hP : 0 < P) (hV : 0 < V)
    (R : List LightAccEntry) (e : LightAccEntry)
    (hsort : R.Pairwise impGE) (hlen : R.length ≤ P + V)
    (hnodup : ((e :: R).map LightAccEntry.importance).Nodup) :
    AccumulateLight P V ⟨R.take P, R.drop P⟩ e false =
      ⟨((insertRanked R e).take (P + V)).take P,
        ((insertRanked R e).take (P + V)).drop P⟩ := by
  have hnodup' : e.importance ∉ R.map LightAccEntry.importance ∧
      (R.map LightAccEntry.importance).Nodup := by
    rw [List.map_cons] at hnodup
    exact List.nodup_cons.1 hnodup
  have hfresh : ∀ x ∈ R, x.importance ≠ e.importance := by
    intro x hx h
    exact hnodup'.1 (h ▸ List.mem_map_of_mem _ hx)
  by_cases hcase : R.length < P
  · have htake : R.take P = R := List.take_of_length_le (le_of_lt hcase)
    have hdrop : R.drop P = [] := List.drop_eq_nil_of_le (le_of_lt hcase)
    have hlen1 : (insertRanked R e).length ≤ P := by
      rw [insertRanked_length]
      omega
    have ht : tierAdmit P (R.take P) e = (insertRanked R e, none) := by
      rw [htake]
      exact tierAdmit_of_lt P R e hcase
    rw [AccumulateLight_false]
    dsimp only
    rw [ht]
    show (⟨insertRanked R e, R.drop P⟩ : DrawableLightAccumulator) = _
    have htrunc : (insertRanked R e).take (P + V) = insertRanked R e :=
      List.take_of_length_le (by rw [insertRanked_length]; omega)
    have h1 : ((insertRanked R e).take (P + V)).take P = insertRanked R e := by
      rw [htrunc, List.take_of_length_le hlen1]
    have h2 : ((insertRanked R e).take (P + V)).drop P = [] := by
      rw [htrunc]
      exact List.drop_eq_nil_of_le hlen1
    rw [h1, h2, hdrop]
  · have hPle : P ≤ R.length := le_of_not_lt hcase
    have hlenpix : (R.take P).length = P := List.length_take_of_le hPle
    have htne : R.take P ≠ [] := by
      intro h
      rw [h] at hlenpix
      simp at hlenpix
      omega
    obtain ⟨m, hm⟩ : ∃ m, (R.take P).getLast? = some m := by
      cases hg : (R.take P).getLast? with
      | none => exact absurd (List.getLast?_eq_none_iff.1 hg) htne
      | some m => exact ⟨m, rfl⟩
    have hmmem : m ∈ R.take P := List.mem_of_getLast?_eq_some hm
    have hmR : m ∈ R := List.mem_of_mem_take hmmem
    have hsorted_take : (R.take P).Pairwise impGE :=
      List.Pairwise.sublist (List.take_sublist P R) hsort
    have hmin_take : ∀ f ∈ R.take P, m.importance ≤ f.importance :=
      pairwise_getLast_min hsorted_take hm
    have hsplit := List.take_append_drop P R
    have hpw : ((R.take P) ++ (R.drop P)).Pairwise impGE := by
      rw [hsplit]
      exact hsort
    have hdrop_le : ∀ x ∈ R.drop P, x.importance ≤ m.importance := fun x hx =>
      (List.pairwise_append.1 hpw).2.2 m hmmem x hx
    have hdrop_lt : ∀ x ∈ R.drop P, x.importance < m.importance := by
      intro x hx
      rcases lt_or_eq_of_le (hdrop_le x hx) with h | h
      · exact h
      · exfalso
        have hnd : ((R.take P).map LightAccEntry.importance ++
            (R.drop P).map LightAccEntry.importance).Nodup := by
          rw [← List.map_append, hsplit]
          exact hnodup'.2
        exact (List.disjoint_of_nodup_append hnd)
          (List.mem_map_of_mem _ hmmem) (h ▸ List.mem_map_of_mem _ hx)
    by_cases hbeat : m.importance < e.importance
    · have hsp := insertRanked_split_beats R P e m hPle hm hbeat
      have ht : tierAdmit P (R.take P) e = ((insertRanked (R.take P) e).dropLast, some m) :=
        tierAdmit_of_full_beats P (R.take P) e m (by omega) hm hbeat
      rw [AccumulateLight_false]
      dsimp only
      rw [ht]
      show (⟨(insertRanked (R.take P) e).dropLast,
        (tierAdmit V (R.drop P) m).1⟩ : DrawableLightAccumulator) = _
      have h1 : ((insertRanked R e).take (P + V)).take P =
          (insertRanked (R.take P) e).dropLast := by
        rw [List.take_take, Nat.min_eq_left (by omega), hsp.1]
      have h2 : ((insertRanked R e).take (P + V)).drop P =
          (tierAdmit V (R.drop P) m).1 := by
        rw [← List.take_drop, hsp.2]
        by_cases hvlt : (R.drop P).length < V
        · rw [tierAdmit_of_lt _ _ _ hvlt, insertRanked_all_lt hdrop_lt]
          rw [List.take_of_length_le (by simp [List.length_drop] at hvlt ⊢; omega)]
        · have hvfull : (R.drop P).length = V := by
            have := List.length_drop P R
            omega
          have hdne : R.drop P ≠ [] := by
            intro h
            rw [h] at hvfull
            simp at hvfull
            omega
          obtain ⟨mv, hmv⟩ : ∃ mv, (R.drop P).getLast? = some mv := by
            cases hg : (R.drop P).getLast? with
            | none => exact absurd (List.getLast?_eq_none_iff.1 hg) hdne
            | some mv => exact ⟨mv, rfl⟩
          have hmvlt : mv.importance < m.importance :=
            hdrop_lt mv (List.mem_of_getLast?_eq_some hmv)
          have ht2 : tierAdmit V (R.drop P) m =
              ((insertRanked (R.drop P) m).dropLast, some mv) :=
            tierAdmit_of_full_beats _ _ _ _ (by omega) hmv hmvlt
          rw [ht2, insertRanked_all_lt hdrop_lt, List.dropLast_eq_take]
          congr 1
          simp [hvfull]
      rw [h1, h2]
    · have hlt_em : e.importance < m.importance := by
        have h1 : e.importance ≤ m.importance := le_of_not_lt hbeat
        have h2 : m.importance ≠ e.importance := hfresh m hmR
        omega
      have htake_gt : ∀ x ∈ R.take P, e.importance < x.importance := fun x hx =>
        lt_of_lt_of_le hlt_em (hmin_take x hx)
      have hsp := insertRanked_split_below R P e hPle htake_gt
      have ht : tierAdmit P (R.take P) e = (R.take P, some e) :=
        tierAdmit_of_full_fails P (R.take P) e m (by omega) hm hbeat
      rw [AccumulateLight_false]
      dsimp only
      rw [ht]
      show (⟨R.take P, (tierAdmit V (R.drop P) e).1⟩ : DrawableLightAccumulator) = _
      have h1 : ((insertRanked R e).take (P + V)).take P = R.take P := by
        rw [List.take_take, Nat.min_eq_left (by omega), hsp.1]
      have h2 : ((insertRanked R e).take (P + V)).drop P =
          (tierAdmit V (R.drop P) e).1 := by
        rw [← List.take_drop, hsp.2]
        by_cases hvlt : (R.drop P).length < V
        · rw [tierAdmit_of_lt _ _ _ hvlt]
          rw [List.take_of_length_le (by rw [insertRanked_length]; omega)]
        · have hvfull : (R.drop P).length = V := by
            have := List.length_drop P R
            omega
          have hdne : R.drop P ≠ [] := by
            intro h
            rw [h] at hvfull
            simp at hvfull
            omega
          obtain ⟨mv, hmv⟩ : ∃ mv, (R.drop P).getLast? = some mv := by
            cases hg : (R.drop P).getLast? with
            | none => exact absurd (List.getLast?_eq_none_iff.1 hg) hdne
            | some mv => exact ⟨mv, rfl⟩
          have hmv_min : ∀ f ∈ R.drop P, mv.importance ≤ f.importance :=
            pairwise_getLast_min
              (List.Pairwise.sublist (List.drop_sublist P R) hsort) hmv
          have hmvR : mv ∈ R :=
            List.mem_of_mem_drop (List.mem_of_getLast?_eq_some hmv)
          have hfresh_mv : mv.importance ≠ e.importance := hfresh mv hmvR
          by_cases hvb : mv.importance < e.importance
          · rw [tierAdmit_of_full_beats _ _ _ _ (by omega) hmv hvb,
              List.dropLast_eq_take]
            congr 1
            rw [insertRanked_length]
            omega
          · have hvsmall : ∀ x ∈ R.drop P, ¬ x.importance < e.importance := by
              intro x hx h'
              have h1 := hmv_min x hx
              omega
            rw [tierAdmit_of_full_fails _ _ _ _ (by omega) hmv hvb,
              insertRanked_all_ge hvsmall, List.take_left' hvfull]
      rw [h1, h2]

/-- Bridge: folding non-important insertions from the split view of a
sorted bounded list equals the split view of the bounded ranked fold. -/
theorem foldl_AccumulateLight_eq_rankedFold (P V : Nat) (hP : 0 < P) (hV : 0 < V) :
    ∀ (l R : List LightAccEntry), R.Pairwise impGE → R.length ≤ P + V →
      ((R ++ l).map LightAccEntry.importance).Nodup →
      l.foldl (fun acc e => AccumulateLight P V acc e false) ⟨R.take P, R.drop P⟩ =
        ⟨(rankedFold (P + V) R l).take P, (rankedFold (P + V) R l).drop P⟩ := by
  intro l
  induction l with
  | nil =>
    intro R _ _ _
    rfl
  | cons e t ih =>
    intro R hsort hlen hnodup
    have hmid : (R ++ e :: t).Perm (e :: (R ++ t)) := List.perm_middle
    have hnodup2 : ((e :: (R ++ t)).map LightAccEntry.importance).Nodup :=
      ((hmid.map LightAccEntry.importance).nodup_iff).1 hnodup
    have hnodupE : ((e :: R).map LightAccEntry.importance).Nodup := by
      have h3 : (((e :: R) ++ t).map LightAccEntry.importance).Nodup := hnodup2
      rw [List.map_append] at h3
      exact List.Nodup.of_append_left h3
    rw [List.foldl_cons, AccumulateLight_split_step P V hP hV R e hsort hlen hnodupE]
    have hsort' : ((insertRanked R e).take (P + V)).Pairwise impGE :=
      List.Pairwise.sublist (List.take_sublist _ _) (insertRanked_pairwise hsort e)
    have hlen' : ((insertRanked R e).take (P + V)).length ≤ P + V :=
      List.length_take_le _ _
    have hnodup' : ((((insertRanked R e).take (P + V)) ++ t).map
        LightAccEntry.importance).Nodup := by
      have hsub : List.Sublist
          ((((insertRanked R e).take (P + V)) ++ t).map LightAccEntry.importance)
          (((insertRanked R e) ++ t).map LightAccEntry.importance) := by
        rw [List.map_append, List.map_append]
        exact List.Sublist.append_right ((List.take_sublist _ _).map _) _
      apply List.Nodup.sublist hsub
      have hp : (insertRanked R e ++ t).Perm ((e :: R) ++ t) :=
        (insertRanked_perm R e).append_right t
      exact ((hp.map _).nodup_iff).2 hnodup2
    exact ih ((insertRanked R e).take (P + V)) hsort' hlen' hnodup'

/-- The bounded ranked fold is the truncation of the full stable
insertion sort. -/
theorem rankedFold_eq_take_rankedSort (K : Nat) :
    ∀ (l S R : List LightAccEntry), R = S.take K →
      rankedFold K R l = (l.foldl insertRanked S).take K := by
  intro l
  induction l with
  | nil =>
    intro S R h
    simpa [rankedFold] using h
  | cons e t ih =>
    intro S R h
    show rankedFold K ((insertRanked R e).take K) t = _
    rw [List.foldl_cons]
    apply ih (insertRanked S e)
    rw [h, take_insertRanked_take]

theorem foldl_insertRanked_pairwise :
    ∀ (l S : List LightAccEntry), S.Pairwise impGE →
      (l.foldl insertRanked S).Pairwise impGE := by
  intro l
  induction l with
  | nil => exact fun S h => h
  | cons e t ih => exact fun S h => ih _ (insertRanked_pairwise h e)

theorem foldl_insertRanked_perm :
    ∀ (l S : List LightAccEntry), (l.foldl insertRanked S).Perm (S ++ l) := by
  intro l
  induction l with
  | nil =>
    intro S
    simp
  | cons e t ih =>
    intro S
    rw [List.foldl_cons]
    refine ((ih (insertRanked S e)).trans ?_)
    refine ((insertRanked_perm S e).append_right t).trans ?_
    exact (List.perm_middle).symm

theorem rankedSort_pairwise (l : List LightAccEntry) : (rankedSort l).Pairwise impGE :=
  foldl_insertRanked_pairwise l [] (by simp)

theorem rankedSort_perm (l : List LightAccEntry) : (rankedSort l).Perm l := by
  simpa using foldl_insertRanked_perm l []

/-- A list sorted by descending importance with pairwise-distinct
importances is determined by its multiset of entries. -/
theorem eq_of_perm_sorted_nodup :
    ∀ {S₁ S₂ : List LightAccEntry}, S₁.Perm S₂ → S₁.Pairwise impGE →
      S₂.Pairwise impGE → (S₁.map LightAccEntry.importance).Nodup → S₁ = S₂ := by
  intro S₁
  induction S₁ with
  | nil =>
    intro S₂ hp _ _ _
    exact hp.nil_eq
  | cons x t ih =>
    intro S₂ hp hs₁ hs₂ hnd
    cases S₂ with
    | nil => exact absurd hp.symm.nil_eq (by simp)
    | cons y u =>
      have hnd' : (∀ z ∈ t, ¬ z.importance = x.importance) ∧
          (t.map LightAccEntry.importance).Nodup := by
        simpa using hnd
      have hxy : x = y := by
        have hx2 : x ∈ y :: u := hp.subset (List.mem_cons_self x t)
        have hy1 : y ∈ x :: t := hp.symm.subset (List.mem_cons_self y u)
        rcases List.mem_cons.1 hx2 with h | hx2'
        · exact h
        rcases List.mem_cons.1 hy1 with h | hy1'
        · exact h.symm
        have h1 : x.importance ≤ y.importance := List.rel_of_pairwise_cons hs₂ hx2'
        have h2 : y.importance ≤ x.importance := List.rel_of_pairwise_cons hs₁ hy1'
        exact absurd (le_antisymm h2 h1) (hnd'.1 y hy1')
      subst hxy
      have ht : t.Perm u := hp.cons_inv
      rw [ih ht (List.pairwise_cons.1 hs₁).2 (List.pairwise_cons.1 hs₂).2 hnd'.2]

/-- For pairwise-distinct importances the accumulator is exactly the
split truncation of the full descending ranking. -/
theorem insertAll_eq_ranked (P V : Nat) (hP : 0 < P) (hV : 0 < V)
    (l : List LightAccEntry) (hnodup : (l.map LightAccEntry.importance).Nodup) :
    insertAll P V l = ⟨((rankedSort l).take (P + V)).take P,
      ((rankedSort l).take (P + V)).drop P⟩ := by
  have h := foldl_AccumulateLight_eq_rankedFold P V hP hV l [] (by simp) (by simp)
    (by simpa using hnodup)
  have h0 : (⟨List.take P [], List.drop P []⟩ : DrawableLightAccumulator) =
      ⟨[], []⟩ := by simp
  rw [h0] at h
  have h2 : rankedFold (P + V) ([] : List LightAccEntry) l =
      (rankedSort l).take (P + V) :=
    rankedFold_eq_take_rankedSort (P + V) l [] [] (by simp)
  rw [← h2]
  exact h

/-- C1 counterexample: inserting the same multiset of five
equal-importance non-important candidates in two different orders yields
different final vertex tiers (stable first-inserted-wins admission is
order-dependent on ties), refuting insertion-order independence as
stated. -/
theorem insertAll_not_order_independent :
    ([(⟨0, 5⟩ : LightAccEntry), ⟨1, 5⟩, ⟨2, 5⟩, ⟨3, 5⟩, ⟨4, 5⟩]).Perm
      [⟨4, 5⟩, ⟨0, 5⟩, ⟨1, 5⟩, ⟨2, 5⟩, ⟨3, 5⟩] ∧
    GetVertexLights 4 (insertAll 4 4 [⟨0, 5⟩, ⟨1, 5⟩, ⟨2, 5⟩, ⟨3, 5⟩, ⟨4, 5⟩]) ≠
      GetVertexLights 4 (insertAll 4 4 [⟨4, 5⟩, ⟨0, 5⟩, ⟨1, 5⟩, ⟨2, 5⟩, ⟨3, 5⟩]) ∧
    insertAll 4 4 [⟨0, 5⟩, ⟨1, 5⟩, ⟨2, 5⟩, ⟨3, 5⟩, ⟨4, 5⟩] ≠
      insertAll 4 4 [⟨4, 5⟩, ⟨0, 5⟩, ⟨1, 5⟩, ⟨2, 5⟩, ⟨3, 5⟩] := by
  decide

/-- C1 (amended, spec-modelled): `GetVertexLights` always returns
exactly `MaxVertexLights` (= 4) slots, so at most 4 light entries, and
the vertex tier itself never exceeds 4 entries; and for candidates
inserted without the importance override whose importance scores are
pairwise distinct, the final pixel and vertex tiers are a function of
the candidate multiset alone — any insertion order yields the same
tiers — and the retained entries are the highest-importance candidates:
the pixel tier is the top 4 and the vertex tier the next 4 of the
descending ranking. -/
theorem insertAll_distinct_importances (l₁ l₂ : List LightAccEntry)
    (hperm : l₁.Perm l₂) (hnodup : (l₁.map LightAccEntry.importance).Nodup) :
    insertAll 4 4 l₁ = insertAll 4 4 l₂ ∧
    insertAll 4 4 l₁ = ⟨((rankedSort l₁).take 8).take 4,
      ((rankedSort l₁).take 8).drop 4⟩ ∧
    GetVertexLights 4 (insertAll 4 4 l₁) = GetVertexLights 4 (insertAll 4 4 l₂) ∧
    (∀ seq : List (LightAccEntry × Bool),
      (accumulateLights 4 4 seq).vertexLights.length ≤ 4 ∧
      (GetVertexLights 4 (accumulateLights 4 4 seq)).length = 4) := by
  have hnodup₂ : (l₂.map LightAccEntry.importance).Nodup :=
    ((hperm.map _).nodup_iff).1 hnodup
  have hsort_eq : rankedSort l₁ = rankedSort l₂ :=
    eq_of_perm_sorted_nodup
      ((rankedSort_perm l₁).trans (hperm.trans (rankedSort_perm l₂).symm))
      (rankedSort_pairwise l₁) (rankedSort_pairwise l₂)
      ((((rankedSort_perm l₁).map _).nodup_iff).2 hnodup)
  have h₁ := insertAll_eq_ranked 4 4 (by norm_num) (by norm_num) l₁ hnodup
  have h₂ := insertAll_eq_ranked 4 4 (by norm_num) (by norm_num) l₂ hnodup₂
  have heq : insertAll 4 4 l₁ = insertAll 4 4 l₂ := by
    rw [h₁, h₂, hsort_eq]
  refine ⟨heq, h₁, by rw [heq], ?_⟩
  intro seq
  have hinv := accumulateLights_invariant 4 4 (by norm_num) seq
  refine ⟨hinv.2.2.2, ?_⟩
  have hlen := hinv.2.2.2
  simp [GetVertexLights]
  omega

/-- Witness for C1 at a concrete input: three distinct-importance
candidates inserted in opposite orders give the same accumulator. -/
theorem insertAll_distinct_importances_witness :
    insertAll 4 4 [(⟨0, 1⟩ : LightAccEntry), ⟨1, 2⟩, ⟨2, 3⟩] =
      insertAll 4 4 [⟨2, 3⟩, ⟨1, 2⟩, ⟨0, 1⟩] :=
  (insertAll_distinct_importances _ _ (by decide) (by decide)).1

end Rbfx
